import Mathlib

/-!
Verification development for the fred-database repository.

The development embeds the two persistence pipelines of the repository:

* the script pipeline (`src/scripts/extract_fred_data.py` together with the
  schema of `src/src/setup_database.py`): long table `fred_data_long` with
  `UNIQUE(series_id, date)` and `INSERT OR REPLACE`, watermark-based
  incremental fetching, and an `extraction_log` audit table;
* the class pipeline (`src/src/database.py` and `src/src/fred_extractor.py`):
  table `observations` with `UNIQUE(series_id, date, realtime_start,
  realtime_end)` and `INSERT OR IGNORE`, provider sentinel normalization,
  and an `extraction_log` with record counts;
* the denormalizer (`src/scripts/transform_fred_data.py`): dedup, pivot,
  column prefixing, reindex on the date shell, forward fill, truncation at
  the current date, dynamic column addition and the date-keyed upsert into
  `fred_data_wide`.

Dates are modelled as day numbers (`Nat`): ISO `YYYY-MM-DD` strings are
order-isomorphic to day numbers, SQL `MAX` on such text is the chronological
maximum, and adding one day is `Nat.succ`.  Numeric `REAL` values are
modelled as `Rat`; the pipeline only moves values around and never computes
with them.  Provider calls are passed in as explicit responses, so each
extraction function is a pure state transformer.
-/

namespace FredDb

/-- Row of the `fred_data_long` table: `(series_id, date, value)`.
The `value` column is nullable. -/
structure LongRow where
  seriesId : String
  date : Nat
  value : Option Rat
deriving Repr, DecidableEq

/-- Key predicate of the `UNIQUE(series_id, date)` constraint of
`fred_data_long`. -/
def longKey (sid : String) (d : Nat) (r : LongRow) : Bool :=
  r.seriesId == sid && r.date == d

/-- One `INSERT OR REPLACE INTO fred_data_long` statement: the conflicting
row (same `(series_id, date)`) is deleted and the fresh row appended. -/
def upsertLong (store : List LongRow) (sid : String) (d : Nat) (v : Option Rat) :
    List LongRow :=
  store.filter (fun r => !(longKey sid d r)) ++ [⟨sid, d, v⟩]

/-- Function `insert_observations` of `scripts/extract_fred_data.py`:
one `INSERT OR REPLACE` per fetched `(date, value)` pair. -/
def insert_observations (store : List LongRow) (sid : String)
    (data : List (Nat × Option Rat)) : List LongRow :=
  data.foldl (fun s p => upsertLong s sid p.1 p.2) store

/-- Function `get_latest_date` of `scripts/extract_fred_data.py`:
`SELECT MAX(date) FROM fred_data_long WHERE series_id = ?`, `NULL`
when the series has no stored row. -/
def get_latest_date (store : List LongRow) (sid : String) : Option Nat :=
  ((store.filter (fun r => r.seriesId == sid)).map (·.date)).max?

/-- Watermark computation at the start of `extract_and_store`: maximum
stored date plus one day when a row exists, otherwise the configured
default start date. -/
def nextStartDate (store : List LongRow) (sid : String) (defaultStart : Nat) : Nat :=
  match get_latest_date store sid with
  | some m => m + 1
  | none => defaultStart

/-- Row of the `series_metadata` table of `setup_database.py`:
title, frequency, units, last-updated payload of a series. -/
structure MetaInfo where
  title : String
  frequency : String
  units : String
  lastUpdated : String
deriving Repr, DecidableEq

/-- Row of the `extraction_log` table of `setup_database.py`:
`(series_id, status, message)`; the wall-clock `extracted_at` column is
irrelevant to every claim and omitted. -/
structure AuditEntry where
  seriesId : String
  status : String
  message : String
deriving Repr, DecidableEq

/-- State touched by `scripts/extract_fred_data.py`: the three tables
`fred_data_long`, `series_metadata` and `extraction_log`. -/
structure ScriptState where
  long : List LongRow
  meta : List (String × MetaInfo)
  audit : List AuditEntry
deriving Repr, DecidableEq

/-- One `INSERT OR REPLACE INTO series_metadata` keyed on the primary key
`id`. -/
def upsertMetaRow (m : List (String × MetaInfo)) (sid : String) (info : MetaInfo) :
    List (String × MetaInfo) :=
  m.filter (fun kv => !(kv.1 == sid)) ++ [(sid, info)]

/-- Function `upsert_series_metadata` of `scripts/extract_fred_data.py`:
on a successful provider lookup the metadata row is replaced; on a failed
lookup the exception is swallowed (a console warning only) and the state is
untouched. -/
def upsert_series_metadata (st : ScriptState) (sid : String)
    (infoResp : Except String MetaInfo) : ScriptState :=
  match infoResp with
  | .ok info => { st with meta := upsertMetaRow st.meta sid info }
  | .error _ => st

/-- Function `log_extraction` of `scripts/extract_fred_data.py`: appends one
row to `extraction_log`. -/
def log_extraction (st : ScriptState) (sid status msg : String) : ScriptState :=
  { st with audit := st.audit ++ [⟨sid, status, msg⟩] }

/-- Function `extract_and_store` of `scripts/extract_fred_data.py`.  The
provider fetch is passed in as a function of the requested start date; the
source computes the watermark, fetches observations, then upserts metadata,
then upserts the observations, then logs one success entry carrying the
record count; any fetch failure is caught and logged as one error entry
carrying the exception text. -/
def extract_and_store (st : ScriptState) (sid : String) (defaultStart : Nat)
    (infoResp : Except String MetaInfo)
    (fetch : Nat → Except String (List (Nat × Option Rat))) : ScriptState :=
  match fetch (nextStartDate st.long sid defaultStart) with
  | .error e => log_extraction st sid "error" e
  | .ok data =>
      let st1 := upsert_series_metadata st sid infoResp
      let st2 := { st1 with long := insert_observations st1.long sid data }
      log_extraction st2 sid "success" (toString data.length ++ " records")

namespace FREDDatabase

/-- Provider series payload consumed by `FREDDatabase.insert_series_metadata`,
keyed by its `id` field; the remaining metadata columns are bundled as one
opaque payload. -/
structure SeriesInfo where
  id : String
  payload : MetaInfo
deriving Repr, DecidableEq

/-- Raw provider observation value as found in the FRED JSON: either the
missing-value sentinel token `'.'` or a numeric string. -/
inductive RawValue where
  | dot
  | num (v : Rat)
deriving Repr, DecidableEq

/-- Expression `obs.get('value') if obs.get('value') != '.' else None` of
`FREDDatabase.insert_observations`: the sentinel becomes `NULL`, anything
else is stored as is. -/
def normalizeValue (v : RawValue) : Option Rat :=
  match v with
  | .dot => none
  | .num q => some q

/-- Raw provider observation as consumed by
`FREDDatabase.insert_observations`. -/
structure RawObs where
  date : Nat
  value : RawValue
  rtStart : Nat
  rtEnd : Nat
deriving Repr, DecidableEq

/-- Row of the `observations` table of `FREDDatabase.create_tables`:
`UNIQUE (series_id, date, realtime_start, realtime_end)`, nullable `value`. -/
structure ObsRow where
  seriesId : String
  date : Nat
  value : Option Rat
  rtStart : Nat
  rtEnd : Nat
deriving Repr, DecidableEq

/-- Key predicate of the `UNIQUE` constraint of `observations`. -/
def obsKey (sid : String) (d rs re : Nat) (r : ObsRow) : Bool :=
  r.seriesId == sid && r.date == d && r.rtStart == rs && r.rtEnd == re

/-- Row of the `extraction_log` table of `FREDDatabase.create_tables`:
`(series_id, status, records_extracted, error_message)`. -/
structure LogRow where
  seriesId : String
  status : String
  records : Nat
  errorMessage : Option String
deriving Repr, DecidableEq

/-- State of the class-pipeline database: `series_metadata`, `observations`
and `extraction_log`. -/
structure DbState where
  seriesMetadata : List SeriesInfo
  observations : List ObsRow
  log : List LogRow
deriving Repr, DecidableEq

/-- Method `FREDDatabase.insert_series_metadata`: `INSERT OR REPLACE` keyed
on the primary key `id`. -/
def insert_series_metadata (m : List SeriesInfo) (info : SeriesInfo) :
    List SeriesInfo :=
  m.filter (fun r => !(r.id == info.id)) ++ [info]

/-- Method `FREDDatabase.insert_observations`: one `INSERT OR IGNORE` per
raw observation — a row conflicting on the `UNIQUE` key is left untouched —
returning the store together with the count of rows actually inserted. -/
def insert_observations (store : List ObsRow) (sid : String) :
    List RawObs → List ObsRow × Nat
  | [] => (store, 0)
  | o :: rest =>
      if store.any (obsKey sid o.date o.rtStart o.rtEnd) then
        insert_observations store sid rest
      else
        let res := insert_observations
          (store ++ [⟨sid, o.date, normalizeValue o.value, o.rtStart, o.rtEnd⟩]) sid rest
        (res.1, res.2 + 1)

/-- Method `FREDDatabase.get_series_list`:
`SELECT DISTINCT id FROM series_metadata`. -/
def get_series_list (st : DbState) : List String :=
  (st.seriesMetadata.map (·.id)).dedup

end FREDDatabase

namespace FREDExtractor

open FREDDatabase

/-- Method `FREDExtractor.extract_series`.  Provider responses for the
metadata lookup and the observation fetch are passed in explicitly; the
returned flag is the method's boolean result.  Behaviour mirrored from the
source: when the series already exists in `series_metadata` and
`force_update` is false the method returns `True` immediately, appending no
log entry; a metadata-lookup failure appends one `failed` entry carrying
the exception text and skips the observation fetch; a fetch failure appends
one `failed` entry (the metadata upsert already happened); an empty fetch
appends one zero-count `success` entry; a non-empty fetch inserts the
observations and appends one `success` entry carrying the inserted count. -/
def extract_series (st : DbState) (sid : String)
    (infoResp : Except String SeriesInfo)
    (obsResp : Except String (List RawObs))
    (forceUpdate : Bool) : DbState × Bool :=
  if (get_series_list st).contains sid && !forceUpdate then
    (st, true)
  else
    match infoResp with
    | .error e =>
        ({ st with log := st.log ++ [⟨sid, "failed", 0, some e⟩] }, false)
    | .ok info =>
        let st1 := { st with
          seriesMetadata := insert_series_metadata st.seriesMetadata info }
        match obsResp with
        | .error e =>
            ({ st1 with log := st1.log ++ [⟨sid, "failed", 0, some e⟩] }, false)
        | .ok data =>
            if data.isEmpty then
              ({ st1 with
                log := st1.log ++ [⟨sid, "success", 0, some "No observations found"⟩] }, true)
            else
              let res := FREDDatabase.insert_observations st1.observations sid data
              ({ st1 with
                  observations := res.1
                  log := st1.log ++ [⟨sid, "success", res.2, none⟩] }, true)

/-- Method `FREDExtractor.extract_multiple_series`: sequentially extracts a
list of jobs (series id together with its provider responses), threading the
database state and collecting one boolean result per series regardless of
individual failures. -/
def extract_multiple_series (st : DbState)
    (jobs : List (String × Except String SeriesInfo × Except String (List RawObs)))
    (forceUpdate : Bool) : DbState × List (String × Bool) :=
  jobs.foldl (fun acc job =>
    let r := extract_series acc.1 job.1 job.2.1 job.2.2 forceUpdate
    (r.1, acc.2 ++ [(job.1, r.2)])) (st, [])

end FREDExtractor

/-- Pandas duplicate test of
`df.drop_duplicates(subset=["date", "series_id"], keep="last")`:
two long rows agree on the `(date, series_id)` pair. -/
def sameKey (a b : LongRow) : Bool :=
  a.date == b.date && a.seriesId == b.seriesId

/-- Step 1 of `denormalize_observations`: drop duplicate `(date, series_id)`
rows keeping the last occurrence, in its original position. -/
def dropDuplicatesKeepLast : List LongRow → List LongRow
  | [] => []
  | r :: rs =>
      if rs.any (sameKey r) then dropDuplicatesKeepLast rs
      else r :: dropDuplicatesKeepLast rs

/-- Test selecting the long row of one pivot cell. -/
def keyAt (d : Nat) (sid : String) (r : LongRow) : Bool :=
  r.date == d && r.seriesId == sid

/-- Step 2 of `denormalize_observations`: the pivot cell of
`df.pivot(index="date", columns="series_id", values="value")` after
deduplication — `none` when the date/series pair has no row, otherwise the
(unique) row's nullable value. -/
def pivotCell (rows : List LongRow) (d : Nat) (sid : String) : Option (Option Rat) :=
  ((dropDuplicatesKeepLast rows).find? (keyAt d sid)).map (·.value)

/-- The last row of the input carrying a given `(date, series_id)` key. -/
def lastMatch (rows : List LongRow) (d : Nat) (sid : String) : Option LongRow :=
  rows.reverse.find? (keyAt d sid)

/-- Cell of the pivoted frame before forward fill: a missing row and a
stored SQL `NULL` are both a pandas `NaN`, hence both `none`. -/
def preCell (rows : List LongRow) (d : Nat) (sid : String) : Option Rat :=
  (pivotCell rows d sid).bind id

/-- One step of `ffill` along ascending dates: a non-null cell replaces the
carried value, a null cell keeps it. -/
def ffillStep (rows : List LongRow) (sid : String) (acc : Option Rat) (d : Nat) :
    Option Rat :=
  match preCell rows d sid with
  | some v => some v
  | none => acc

/-- Steps 4-5 of `denormalize_observations`: the frame is reindexed onto the
calendar shell in ascending date order and forward filled, so the cell at
shell date `d` is the last non-null pivot cell over the shell dates `≤ d`.
The fold runs over the sorted shell restricted to dates `≤ d`, which for a
sorted index coincides with pandas `ffill` at row `d`. -/
def ffillCellAt (rows : List LongRow) (shell : List Nat) (sid : String) (d : Nat) :
    Option Rat :=
  ((List.insertionSort (· ≤ ·) shell).filter (fun x => x ≤ d)).foldl
    (ffillStep rows sid) none

/-- Code-point comparison of two char lists, mirroring Python string order
used by the pandas pivot to sort its columns. -/
def strLeChars : List Char → List Char → Bool
  | [], _ => true
  | _ :: _, [] => false
  | a :: as, b :: bs =>
      if a.val < b.val then true
      else if b.val < a.val then false
      else strLeChars as bs

/-- Code-point comparison of two series ids. -/
def strLeB (a b : String) : Bool :=
  strLeChars a.data b.data

/-- Sorted insertion of a series id. -/
def orderedInsertStr (s : String) : List String → List String
  | [] => [s]
  | t :: ts => if strLeB s t then s :: t :: ts else t :: orderedInsertStr s ts

/-- Sorting of the pivot's column labels. -/
def sortStrings : List String → List String
  | [] => []
  | s :: ss => orderedInsertStr s (sortStrings ss)

/-- Column labels of the pivot: the distinct series ids in sorted order. -/
def pivotCols (rows : List LongRow) : List String :=
  sortStrings ((rows.map (·.seriesId)).dedup)

/-- Step 3 of `denormalize_observations`:
`wide_df.columns = [f"fred_{col}" for col in wide_df.columns]`. -/
def wideCols (rows : List LongRow) : List String :=
  (pivotCols rows).map (fun s => "fred_" ++ s)

/-- The wide frame built by `denormalize_observations`: its row index (the
sorted shell truncated at the current date by `.loc[:today]`), its column
labels, and its cell contents keyed by shell date and raw series id. -/
structure WideFrame where
  dates : List Nat
  cols : List String
  cell : Nat → String → Option Rat

/-- Function `denormalize_observations` of `scripts/transform_fred_data.py`:
dedup keeping the last duplicate, pivot, prefix the columns with `fred_`,
reindex onto the date shell in ascending order, forward fill, and truncate
to rows with date at most `today` (`pd.Timestamp.today()`, passed
explicitly). -/
def denormalize_observations (rows : List LongRow) (shell : List Nat)
    (today : Nat) : WideFrame :=
  { dates := (List.insertionSort (· ≤ ·) shell).filter (fun x => x ≤ today)
    cols := wideCols rows
    cell := fun d sid => ffillCellAt rows shell sid d }

/-- The `fred_data_wide` table: its column set (besides the `date` primary
key) and its rows, each a date with an association list of stored cells;
a column with no stored cell for a date reads as SQL `NULL`. -/
structure WideTable where
  cols : List String
  rows : List (Nat × List (String × Option Rat))
deriving Repr, DecidableEq

/-- Function `ensure_columns` of `scripts/transform_fred_data.py`: snapshot
the existing columns (`PRAGMA table_info`), then `ALTER TABLE ... ADD
COLUMN` each frame column missing from the snapshot; no column is ever
dropped. -/
def ensure_columns (cols frameCols : List String) : List String :=
  cols ++ frameCols.filter (fun c => !(cols.contains c))

/-- Effect of `ON CONFLICT(date) DO UPDATE SET "c"=excluded."c"` over the
frame columns: an updated column takes the incoming value (null included),
every other column keeps its stored cell. -/
def applyUpdates (cells upd : List (String × Option Rat)) :
    List (String × Option Rat) :=
  upd ++ cells.filter (fun kv => (upd.lookup kv.1).isNone)

/-- One statement of the `upsert_wide_table` loop: insert the row when the
date is new, otherwise update the conflicting row's frame columns. -/
def upsertRow (rows : List (Nat × List (String × Option Rat))) (d : Nat)
    (upd : List (String × Option Rat)) :
    List (Nat × List (String × Option Rat)) :=
  if rows.any (fun rc => rc.1 == d) then
    rows.map (fun rc => if rc.1 == d then (rc.1, applyUpdates rc.2 upd) else rc)
  else rows ++ [(d, upd)]

/-- Function `upsert_wide_table` of `scripts/transform_fred_data.py`: ensure
the frame's columns exist, then upsert one row per frame date, the row
binding every frame column to the frame's (nullable) value at that date. -/
def upsert_wide_table (tbl : WideTable) (frameCols : List String)
    (frameRows : List (Nat × List (Option Rat))) : WideTable :=
  { cols := ensure_columns tbl.cols frameCols
    rows := frameRows.foldl
      (fun rs dr => upsertRow rs dr.1 (frameCols.zip dr.2)) tbl.rows }

/-- Stored cell of the wide table at a date and column: `none` when the
date has no row, otherwise `some` of the (nullable) cell. -/
def cellValue (tbl : WideTable) (d : Nat) (c : String) : Option (Option Rat) :=
  (tbl.rows.find? (fun rc => rc.1 == d)).bind (fun rc => rc.2.lookup c)

theorem mem_filter_series {store : List LongRow} {sid : String} {r : LongRow} :
    r ∈ store.filter (fun r => r.seriesId == sid) ↔ r ∈ store ∧ r.seriesId = sid := by
  simp [List.mem_filter]

/-- C1 helper: the `MAX(date)` query returns `some m` exactly when `m` is a
stored date of the series dominating all its stored dates. -/
theorem get_latest_date_spec (store : List LongRow) (sid : String) (m : Nat) :
    get_latest_date store sid = some m ↔
      (∃ r ∈ store, r.seriesId = sid ∧ r.date = m) ∧
        (∀ r ∈ store, r.seriesId = sid → r.date ≤ m) := by
  unfold get_latest_date
  rw [List.max?_eq_some_iff']
  constructor
  · rintro ⟨hmem, hub⟩
    rw [List.mem_map] at hmem
    obtain ⟨r, hr, hrd⟩ := hmem
    rw [mem_filter_series] at hr
    refine ⟨⟨r, hr.1, hr.2, hrd⟩, ?_⟩
    intro r' hr' hsid
    exact hub r'.date (List.mem_map_of_mem _ (mem_filter_series.mpr ⟨hr', hsid⟩))
  · rintro ⟨⟨r, hr, hsid, hrd⟩, hub⟩
    constructor
    · rw [List.mem_map]
      exact ⟨r, mem_filter_series.mpr ⟨hr, hsid⟩, hrd⟩
    · intro b hb
      rw [List.mem_map] at hb
      obtain ⟨r', hr', hrd'⟩ := hb
      rw [mem_filter_series] at hr'
      exact hrd' ▸ hub r' hr'.1 hr'.2

/-- C1 helper: the query returns `NULL` exactly when the series has no
stored row. -/
theorem get_latest_date_none (store : List LongRow) (sid : String) :
    get_latest_date store sid = none ↔ ∀ r ∈ store, r.seriesId ≠ sid := by
  unfold get_latest_date
  rw [List.max?_eq_none_iff]
  simp [List.eq_nil_iff_forall_not_mem, mem_filter_series]
  tauto

/-- C1: when at least one observation row is stored for the series, the
watermark is the maximum stored date plus one day; when none is stored it
is the configured default start date.  The computation is a read-only
`SELECT`, embedded as a pure function of the store. -/
theorem watermark_correct (store : List LongRow) (sid : String) (defaultStart : Nat) :
    ((∃ r ∈ store, r.seriesId = sid) →
      ∃ m, (∃ r ∈ store, r.seriesId = sid ∧ r.date = m) ∧
        (∀ r ∈ store, r.seriesId = sid → r.date ≤ m) ∧
        nextStartDate store sid defaultStart = m + 1) ∧
    ((∀ r ∈ store, r.seriesId ≠ sid) →
      nextStartDate store sid defaultStart = defaultStart) := by
  constructor
  · rintro ⟨r, hr, hsid⟩
    cases hmax : get_latest_date store sid with
    | none =>
        exact absurd hsid ((get_latest_date_none store sid).mp hmax r hr)
    | some m =>
        obtain ⟨hex, hub⟩ := (get_latest_date_spec store sid m).mp hmax
        exact ⟨m, hex, hub, by simp [nextStartDate, hmax]⟩
  · intro hnone
    have : get_latest_date store sid = none := (get_latest_date_none store sid).mpr hnone
    simp [nextStartDate, this]

/-- C1 witness: a store with one row for series `X` at day 4 yields
watermark 5; the empty store yields the default 7. -/
theorem watermark_correct_witness :
    (∃ m, (∃ r ∈ [(⟨"X", 4, some 1⟩ : LongRow)], r.seriesId = "X" ∧ r.date = m) ∧
        (∀ r ∈ [(⟨"X", 4, some 1⟩ : LongRow)], r.seriesId = "X" → r.date ≤ m) ∧
        nextStartDate [⟨"X", 4, some 1⟩] "X" 7 = m + 1) ∧
      nextStartDate [] "X" 7 = 7 :=
  ⟨(watermark_correct [⟨"X", 4, some 1⟩] "X" 7).1 ⟨⟨"X", 4, some 1⟩, by simp, rfl⟩,
   (watermark_correct [] "X" 7).2 (by simp)⟩

/-- C2: upserting `(sid, d, v1)` and later `(sid, d, v2)` leaves exactly one
`fred_data_long` row for the key `(sid, d)`, holding `v2`: the statement is
`INSERT OR REPLACE`, not insert-or-ignore. -/
theorem upsert_overwrites (store : List LongRow) (sid : String) (d : Nat)
    (v1 v2 : Option Rat) :
    (insert_observations (insert_observations store sid [(d, v1)]) sid
        [(d, v2)]).filter (longKey sid d) = [⟨sid, d, v2⟩] := by
  have key_self : longKey sid d ⟨sid, d, v2⟩ = true := by simp [longKey]
  have filtered : ∀ s : List LongRow,
      (s.filter (fun r => !(longKey sid d r))).filter (longKey sid d) = [] := by
    intro s
    rw [List.filter_filter]
    apply List.filter_eq_nil_iff.mpr
    intro r _
    cases h : longKey sid d r <;> simp [h]
  simp only [insert_observations, List.foldl_cons, List.foldl_nil, upsertLong]
  rw [List.filter_append, filtered]
  simp [key_self]

/-- Helper for the extract-multiple loop: the fold threads the state but
always records one result per job, so every series of a run is processed. -/
theorem extract_multiple_series_results (force : Bool) :
    ∀ (jobs : List (String × Except String FREDDatabase.SeriesInfo ×
        Except String (List FREDDatabase.RawObs)))
      (st : FREDDatabase.DbState) (acc : FREDDatabase.DbState × List (String × Bool)),
      acc.1 = st →
      ((jobs.foldl (fun acc job =>
          let r := FREDExtractor.extract_series acc.1 job.1 job.2.1 job.2.2 force
          (r.1, acc.2 ++ [(job.1, r.2)])) acc).2.map Prod.fst)
        = acc.2.map Prod.fst ++ jobs.map (·.1) := by
  intro jobs
  induction jobs with
  | nil => intro st acc _; simp
  | cons job rest ih =>
      intro st acc _
      simp only [List.foldl_cons]
      rw [ih (FREDExtractor.extract_series acc.1 job.1 job.2.1 job.2.2 force).1 _ rfl]
      simp

/-- Helper: unfolded form of the skip-existing guard of `extract_series`. -/
theorem not_skip {st : FREDDatabase.DbState} {sid : String} {force : Bool}
    (h : ((FREDDatabase.get_series_list st).contains sid && !force) = false) :
    ¬(sid ∈ FREDDatabase.get_series_list st ∧ force = false) := by
  rintro ⟨hm, hf⟩
  subst hf
  simp at h
  exact h hm

/-- C5 counterexample: in `scripts/extract_fred_data.py` the observation
fetch happens before the metadata lookup, and a failed metadata lookup is
swallowed with a console warning: on a concrete run with a failing metadata
lookup the fetched observation is stored and the single audit entry has
status `success`, so no error-status entry is appended and the fetch is not
skipped. -/
theorem metadata_failure_script_cex :
    (extract_and_store ⟨[], [], []⟩ "GDP" 0 (Except.error "metadata lookup failed")
        (fun _ => Except.ok [(3, some 1)])).long = [⟨"GDP", 3, some 1⟩] ∧
    (extract_and_store ⟨[], [], []⟩ "GDP" 0 (Except.error "metadata lookup failed")
        (fun _ => Except.ok [(3, some 1)])).meta = [] ∧
    (∀ a ∈ (extract_and_store ⟨[], [], []⟩ "GDP" 0 (Except.error "metadata lookup failed")
        (fun _ => Except.ok [(3, some 1)])).audit, a.status = "success") := by
  refine ⟨by decide, by decide, ?_⟩
  decide

/-- C5 amended: in `FREDExtractor.extract_series` (when the series is not
skipped as already existing without `force_update`), a failed provider
metadata lookup writes no metadata row, touches no observation, appends
exactly one failed-status log entry carrying the error detail, returns
failure, and the result is independent of the observation response (the
fetch is never consulted); `extract_multiple_series` still records a result
for every series of the run. -/
theorem metadata_failure_halts (st : FREDDatabase.DbState) (sid e : String)
    (obsResp : Except String (List FREDDatabase.RawObs)) (force : Bool)
    (h : ((FREDDatabase.get_series_list st).contains sid && !force) = false) :
    ((FREDExtractor.extract_series st sid (Except.error e) obsResp force).1.seriesMetadata
        = st.seriesMetadata ∧
      (FREDExtractor.extract_series st sid (Except.error e) obsResp force).1.observations
        = st.observations ∧
      (FREDExtractor.extract_series st sid (Except.error e) obsResp force).1.log
        = st.log ++ [⟨sid, "failed", 0, some e⟩] ∧
      (FREDExtractor.extract_series st sid (Except.error e) obsResp force).2 = false) ∧
    (∀ obsResp2, FREDExtractor.extract_series st sid (Except.error e) obsResp2 force
        = FREDExtractor.extract_series st sid (Except.error e) obsResp force) ∧
    (∀ (st2 : FREDDatabase.DbState) jobs force2,
      ((FREDExtractor.extract_multiple_series st2 jobs force2).2.map Prod.fst)
        = jobs.map (·.1)) := by
  refine ⟨?_, ?_, ?_⟩
  · simp [FREDExtractor.extract_series, not_skip h]
  · intro obsResp2
    simp [FREDExtractor.extract_series, not_skip h]
  · intro st2 jobs force2
    have := extract_multiple_series_results force2 jobs st2 (st2, []) rfl
    simpa [FREDExtractor.extract_multiple_series] using this

/-- C5 witness: concrete run of the amended statement on the empty database. -/
theorem metadata_failure_halts_witness :
    (FREDExtractor.extract_series ⟨[], [], []⟩ "GDP" (Except.error "boom")
        (Except.ok []) false).1.log = [⟨"GDP", "failed", 0, some "boom"⟩] ∧
    (FREDExtractor.extract_series ⟨[], [], []⟩ "GDP" (Except.error "boom")
        (Except.ok []) false).2 = false := by
  have h := metadata_failure_halts ⟨[], [], []⟩ "GDP" "boom" (Except.ok []) false (by decide)
  exact ⟨by simpa using h.1.2.2.1, h.1.2.2.2⟩

/-- C8 counterexample: when the series already exists in `series_metadata`
and `force_update` is false, `FREDExtractor.extract_series` returns success
immediately and appends no extraction-log entry, so this extraction
invocation produces zero entries rather than exactly one. -/
theorem audit_skip_cex :
    (FREDExtractor.extract_series
        ⟨[⟨"GDP", ⟨"t", "f", "u", "l"⟩⟩], [], []⟩ "GDP"
        (Except.ok ⟨"GDP", ⟨"t", "f", "u", "l"⟩⟩) (Except.ok []) false).1.log = [] ∧
    (FREDExtractor.extract_series
        ⟨[⟨"GDP", ⟨"t", "f", "u", "l"⟩⟩], [], []⟩ "GDP"
        (Except.ok ⟨"GDP", ⟨"t", "f", "u", "l"⟩⟩) (Except.ok []) false).2 = true := by
  constructor <;> decide

/-- C8 amended: every `extract_and_store` invocation of the script pipeline
appends exactly one audit entry — success with the fetched record count, or
error with the exception detail, a zero-observation fetch being a success
with count 0 — and every `FREDExtractor.extract_series` invocation does the
same except the skip-existing early return (series already stored and
`force_update` false), which appends no entry. -/
theorem audit_exactly_one :
    (∀ (st : ScriptState) (sid : String) (dflt : Nat)
        (infoResp : Except String MetaInfo)
        (fetch : Nat → Except String (List (Nat × Option Rat))),
      (∀ e, fetch (nextStartDate st.long sid dflt) = Except.error e →
        (extract_and_store st sid dflt infoResp fetch).audit
          = st.audit ++ [⟨sid, "error", e⟩]) ∧
      (∀ data, fetch (nextStartDate st.long sid dflt) = Except.ok data →
        (extract_and_store st sid dflt infoResp fetch).audit
          = st.audit ++ [⟨sid, "success", toString data.length ++ " records"⟩]) ∧
      (fetch (nextStartDate st.long sid dflt) = Except.ok [] →
        (extract_and_store st sid dflt infoResp fetch).audit
          = st.audit ++ [⟨sid, "success", "0 records"⟩])) ∧
    (∀ (st : FREDDatabase.DbState) (sid : String)
        (infoResp : Except String FREDDatabase.SeriesInfo)
        (obsResp : Except String (List FREDDatabase.RawObs)) (force : Bool),
      ((FREDDatabase.get_series_list st).contains sid && !force) = false →
      (∀ e, infoResp = Except.error e →
        (FREDExtractor.extract_series st sid infoResp obsResp force).1.log
          = st.log ++ [⟨sid, "failed", 0, some e⟩]) ∧
      (∀ info e, infoResp = Except.ok info → obsResp = Except.error e →
        (FREDExtractor.extract_series st sid infoResp obsResp force).1.log
          = st.log ++ [⟨sid, "failed", 0, some e⟩]) ∧
      (∀ info, infoResp = Except.ok info → obsResp = Except.ok [] →
        (FREDExtractor.extract_series st sid infoResp obsResp force).1.log
          = st.log ++ [⟨sid, "success", 0, some "No observations found"⟩]) ∧
      (∀ info data, infoResp = Except.ok info → obsResp = Except.ok data → data ≠ [] →
        (FREDExtractor.extract_series st sid infoResp obsResp force).1.log
          = st.log ++ [⟨sid, "success",
              (FREDDatabase.insert_observations st.observations sid data).2, none⟩])) := by
  constructor
  · intro st sid dflt infoResp fetch
    refine ⟨?_, ?_, ?_⟩
    · intro e he
      simp [extract_and_store, he, log_extraction]
    · intro data hd
      cases infoResp <;>
        simp [extract_and_store, hd, log_extraction, upsert_series_metadata]
    · intro hd
      cases infoResp <;>
        simp [extract_and_store, hd, log_extraction, upsert_series_metadata,
          show toString (0 : Nat) = "0" from rfl]
  · intro st sid infoResp obsResp force h
    refine ⟨?_, ?_, ?_, ?_⟩
    · intro e he
      subst he
      simp [FREDExtractor.extract_series, not_skip h]
    · intro info e hi ho
      subst hi; subst ho
      simp [FREDExtractor.extract_series, not_skip h]
    · intro info hi ho
      subst hi; subst ho
      simp [FREDExtractor.extract_series, not_skip h]
    · intro info data hi ho hne
      subst hi; subst ho
      simp [FREDExtractor.extract_series, not_skip h, hne]

theorem mem_dropDuplicatesKeepLast {r : LongRow} :
    ∀ {l : List LongRow}, r ∈ dropDuplicatesKeepLast l → r ∈ l := by
  intro l
  induction l with
  | nil => simp [dropDuplicatesKeepLast]
  | cons a l ih =>
      simp only [dropDuplicatesKeepLast]
      by_cases h : l.any (sameKey a) = true
      · rw [if_pos h]
        intro hm
        exact List.mem_cons_of_mem a (ih hm)
      · rw [if_neg h]
        intro hm
        rcases List.mem_cons.mp hm with h1 | h1
        · exact h1 ▸ List.mem_cons_self a l
        · exact List.mem_cons_of_mem a (ih h1)

theorem sameKey_of_keyAt {d : Nat} {sid : String} {r x : LongRow}
    (hr : keyAt d sid r = true) (hx : keyAt d sid x = true) : sameKey r x = true := by
  simp only [keyAt, Bool.and_eq_true, beq_iff_eq] at hr hx
  simp [sameKey, hr.1, hr.2, hx.1, hx.2]

theorem keyAt_of_sameKey {d : Nat} {sid : String} {r x : LongRow}
    (hr : keyAt d sid r = true) (hs : sameKey r x = true) : keyAt d sid x = true := by
  simp only [keyAt, Bool.and_eq_true, beq_iff_eq] at hr ⊢
  simp only [sameKey, Bool.and_eq_true, beq_iff_eq] at hs
  exact ⟨hs.1 ▸ hr.1, hs.2 ▸ hr.2⟩

/-- Key characterization: the pivot lookup after drop-duplicates-keep-last
finds exactly the last input row with the given key. -/
theorem find?_dropDuplicates (d : Nat) (sid : String) :
    ∀ l : List LongRow,
      (dropDuplicatesKeepLast l).find? (keyAt d sid) = lastMatch l d sid := by
  intro l
  induction l with
  | nil => simp [dropDuplicatesKeepLast, lastMatch]
  | cons r rs ih =>
      have expand : lastMatch (r :: rs) d sid
          = (lastMatch rs d sid).or ((if keyAt d sid r then [r] else []).find? (keyAt d sid)) := by
        simp only [lastMatch, List.reverse_cons, List.find?_append]
        by_cases hk : keyAt d sid r = true <;> simp [hk, List.find?]
      simp only [dropDuplicatesKeepLast]
      by_cases h : rs.any (sameKey r) = true
      · rw [if_pos h, ih, expand]
        by_cases hk : keyAt d sid r = true
        · obtain ⟨x, hx, hsk⟩ := List.any_eq_true.mp h
          have hkx : keyAt d sid x = true := keyAt_of_sameKey hk hsk
          have hsome : (lastMatch rs d sid).isSome := by
            rw [lastMatch, Option.isSome_iff_exists]
            have : (rs.reverse.find? (keyAt d sid)).isSome = true :=
              List.find?_isSome.mpr ⟨x, List.mem_reverse.mpr hx, hkx⟩
            exact Option.isSome_iff_exists.mp this
          obtain ⟨y, hy⟩ := Option.isSome_iff_exists.mp hsome
          simp [lastMatch] at hy
          simp [lastMatch, hy]
        · simp [hk, Option.or_none]
      · rw [if_neg h, expand]
        by_cases hk : keyAt d sid r = true
        · have hnone : lastMatch rs d sid = none := by
            rw [lastMatch, List.find?_eq_none]
            intro x hx hkx
            exact absurd (List.any_eq_true.mpr
              ⟨x, List.mem_reverse.mp hx, sameKey_of_keyAt hk hkx⟩) h
          rw [List.find?_cons_of_pos _ hk, hnone]
          simp [hk]
        · rw [List.find?_cons_of_neg _ hk, ih]
          simp [hk]

/-- Helper: after drop-duplicates-keep-last, at most one row carries any
given `(date, series_id)` key, so the pivot is a reshape and never an
aggregation. -/
theorem dedup_unique (d : Nat) (sid : String) :
    ∀ l : List LongRow,
      ((dropDuplicatesKeepLast l).filter (keyAt d sid)).length ≤ 1 := by
  intro l
  induction l with
  | nil => simp [dropDuplicatesKeepLast]
  | cons r rs ih =>
      simp only [dropDuplicatesKeepLast]
      by_cases h : rs.any (sameKey r) = true
      · rw [if_pos h]; exact ih
      · rw [if_neg h]
        by_cases hk : keyAt d sid r = true
        · rw [List.filter_cons_of_pos hk]
          have hempty : (dropDuplicatesKeepLast rs).filter (keyAt d sid) = [] := by
            apply List.filter_eq_nil_iff.mpr
            intro x hx hkx
            exact absurd (List.any_eq_true.mpr
              ⟨x, mem_dropDuplicatesKeepLast hx, sameKey_of_keyAt hk hkx⟩) h
          simp [hempty]
        · rw [List.filter_cons_of_neg hk]
          exact ih

/-- C6: duplicate long rows sharing a `(date, series_id)` key collapse to at
most one row per key, and every pivot cell holds exactly the value of the
last-seen row with that key. -/
theorem dedup_keeps_last (rows : List LongRow) (d : Nat) (sid : String) :
    ((dropDuplicatesKeepLast rows).filter (keyAt d sid)).length ≤ 1 ∧
    pivotCell rows d sid = (lastMatch rows d sid).map (·.value) := by
  refine ⟨dedup_unique d sid rows, ?_⟩
  rw [pivotCell, find?_dropDuplicates]

/-- Helper for C4: a column with no non-null observation at or before `d`
has a null pivot cell at every shell date `x ≤ d`. -/
theorem preCell_none_of {rows : List LongRow} {sid : String} {d x : Nat}
    (hx : x ≤ d)
    (h : ∀ r ∈ rows, r.seriesId = sid → r.date ≤ d → r.value = none) :
    preCell rows x sid = none := by
  unfold preCell pivotCell
  cases hf : (dropDuplicatesKeepLast rows).find? (keyAt x sid) with
  | none => rfl
  | some r =>
      have hk := List.find?_some hf
      have hmem := mem_dropDuplicatesKeepLast (List.mem_of_find?_eq_some hf)
      simp only [keyAt, Bool.and_eq_true, beq_iff_eq] at hk
      have hv := h r hmem hk.2 (le_of_eq_of_le hk.1 hx)
      simp [hv]

/-- Helper for C4: forward fill over dates whose pivot cells are all null
yields null. -/
theorem foldl_ffill_none (rows : List LongRow) (sid : String) :
    ∀ L : List Nat, (∀ x ∈ L, preCell rows x sid = none) →
      L.foldl (ffillStep rows sid) none = none := by
  intro L
  induction L with
  | nil => intro _; rfl
  | cons x L ih =>
      intro h
      rw [List.foldl_cons]
      have hx : ffillStep rows sid none x = none := by
        unfold ffillStep
        rw [h x (List.mem_cons_self x L)]
      rw [hx]
      exact ih fun y hy => h y (List.mem_cons_of_mem x hy)

/-- C4: forward fill never fills from the future — a series column with no
non-null observation dated at or before a given date has a null wide-frame
cell at that date. -/
theorem ffill_no_future (rows : List LongRow) (shell : List Nat)
    (today : Nat) (sid : String) (d : Nat)
    (h : ∀ r ∈ rows, r.seriesId = sid → r.date ≤ d → r.value = none) :
    (denormalize_observations rows shell today).cell d sid = none := by
  show ffillCellAt rows shell sid d = none
  apply foldl_ffill_none
  intro x hx
  have hxd : x ≤ d := by simpa using (List.mem_filter.mp hx).2
  exact preCell_none_of hxd h

/-- C4 witness: the only observation of series `A` is at day 5, so the cell
at day 3 stays null even though day 5 carries a value. -/
theorem ffill_no_future_witness :
    (∀ r ∈ [(⟨"A", 5, some 1⟩ : LongRow)], r.seriesId = "A" → r.date ≤ 3 →
      r.value = none) ∧
    (denormalize_observations [⟨"A", 5, some 1⟩] [3, 5] 10).cell 3 "A" = none :=
  ⟨by decide, ffill_no_future [⟨"A", 5, some 1⟩] [3, 5] 10 "A" 3 (by decide)⟩

/-- Helper: a filter keeping every row that can satisfy the search test does
not change the result of the search. -/
theorem find?_filter_of_imp {α : Type} (p q : α → Bool) :
    ∀ l : List α, (∀ x ∈ l, q x = true → p x = true) →
      (l.filter p).find? q = l.find? q := by
  intro l
  induction l with
  | nil => simp
  | cons a l ih =>
      intro h
      by_cases hp : p a = true
      · rw [List.filter_cons_of_pos hp]
        by_cases hq : q a = true
        · rw [List.find?_cons_of_pos _ hq, List.find?_cons_of_pos _ hq]
        · rw [List.find?_cons_of_neg _ hq, List.find?_cons_of_neg _ hq]
          exact ih fun x hx => h x (List.mem_cons_of_mem a hx)
      · have hq : ¬q a = true := fun hqa => hp (h a (List.mem_cons_self a l) hqa)
        rw [List.filter_cons_of_neg hp, List.find?_cons_of_neg _ hq]
        exact ih fun x hx => h x (List.mem_cons_of_mem a hx)

/-- Helper for C10: restricting the long rows to in-shell dates leaves every
pivot cell at an in-shell date unchanged. -/
theorem preCell_filter_shell (rows : List LongRow) (shell : List Nat)
    {x : Nat} (sid : String) (hx : x ∈ shell) :
    preCell (rows.filter (fun r => shell.contains r.date)) x sid
      = preCell rows x sid := by
  unfold preCell pivotCell
  rw [find?_dropDuplicates, find?_dropDuplicates]
  unfold lastMatch
  rw [← List.filter_reverse]
  have hfind : (rows.reverse.filter (fun r => shell.contains r.date)).find? (keyAt x sid)
      = rows.reverse.find? (keyAt x sid) := by
    apply find?_filter_of_imp
    intro r _ hq
    simp only [keyAt, Bool.and_eq_true, beq_iff_eq] at hq
    rw [hq.1]
    simpa using hx
  rw [hfind]

/-- C10: a long row whose date is not in the calendar shell is invisible to
the wide frame — its date is not a frame row, and deleting every
out-of-shell row changes no cell, so such an observation never seeds any
forward-filled value. -/
theorem shell_reindex_drops (rows : List LongRow) (shell : List Nat)
    (today : Nat) (d : Nat) (sid : String) :
    (d ∉ shell → d ∉ (denormalize_observations rows shell today).dates) ∧
    (denormalize_observations rows shell today).cell d sid
      = (denormalize_observations (rows.filter (fun r => shell.contains r.date))
          shell today).cell d sid := by
  constructor
  · intro hd hmem
    apply hd
    have h1 := (List.mem_filter.mp hmem).1
    exact ((List.perm_insertionSort _ shell).mem_iff).mp h1
  · show ffillCellAt rows shell sid d = ffillCellAt _ shell sid d
    unfold ffillCellAt
    apply List.foldl_ext
    intro acc x hx
    have hxs : x ∈ shell :=
      ((List.perm_insertionSort _ shell).mem_iff).mp (List.mem_filter.mp hx).1
    unfold ffillStep
    rw [preCell_filter_shell rows shell sid hxs]

/-- C10 witness: an observation at day 0, before the two-day shell
`[1, 2]`, appears in no frame row and does not seed the fill at day 1. -/
theorem shell_reindex_drops_witness :
    (0 ∉ (denormalize_observations [⟨"A", 0, some 1⟩] [1, 2] 9).dates) ∧
    (denormalize_observations [⟨"A", 0, some 1⟩] [1, 2] 9).cell 1 "A"
      = (denormalize_observations
          (([⟨"A", 0, some 1⟩] : List LongRow).filter
            (fun r => [1, 2].contains r.date)) [1, 2] 9).cell 1 "A" :=
  ⟨(shell_reindex_drops [⟨"A", 0, some 1⟩] [1, 2] 9 0 "A").1 (by decide),
   (shell_reindex_drops [⟨"A", 0, some 1⟩] [1, 2] 9 1 "A").2⟩

/-- C3: on long rows `[(d1, A, 1), (d1, B, 2), (d2, A, 3)]` and calendar
`[d1, d2, d3]` the wide frame has exactly the columns `fred_A, fred_B`; its
row at `d1` is `(1, 2)`; its row at `d2` is `(3, 2)` with `B` forward
filled; and the row at `d3` is dropped when `d3` lies after the current
date, otherwise it is forward filled to `(3, 2)`. -/
theorem pivot_example (d1 d2 d3 today : Nat)
    (h12 : d1 < d2) (h23 : d2 < d3) (h2t : d2 ≤ today) :
    (denormalize_observations
        [⟨"A", d1, some 1⟩, ⟨"B", d1, some 2⟩, ⟨"A", d2, some 3⟩]
        [d1, d2, d3] today).cols = ["fred_A", "fred_B"] ∧
    (denormalize_observations
        [⟨"A", d1, some 1⟩, ⟨"B", d1, some 2⟩, ⟨"A", d2, some 3⟩]
        [d1, d2, d3] today).cell d1 "A" = some 1 ∧
    (denormalize_observations
        [⟨"A", d1, some 1⟩, ⟨"B", d1, some 2⟩, ⟨"A", d2, some 3⟩]
        [d1, d2, d3] today).cell d1 "B" = some 2 ∧
    (denormalize_observations
        [⟨"A", d1, some 1⟩, ⟨"B", d1, some 2⟩, ⟨"A", d2, some 3⟩]
        [d1, d2, d3] today).cell d2 "A" = some 3 ∧
    (denormalize_observations
        [⟨"A", d1, some 1⟩, ⟨"B", d1, some 2⟩, ⟨"A", d2, some 3⟩]
        [d1, d2, d3] today).cell d2 "B" = some 2 ∧
    (today < d3 →
      (denormalize_observations
        [⟨"A", d1, some 1⟩, ⟨"B", d1, some 2⟩, ⟨"A", d2, some 3⟩]
        [d1, d2, d3] today).dates = [d1, d2]) ∧
    (d3 ≤ today →
      (denormalize_observations
        [⟨"A", d1, some 1⟩, ⟨"B", d1, some 2⟩, ⟨"A", d2, some 3⟩]
        [d1, d2, d3] today).dates = [d1, d2, d3] ∧
      (denormalize_observations
        [⟨"A", d1, some 1⟩, ⟨"B", d1, some 2⟩, ⟨"A", d2, some 3⟩]
        [d1, d2, d3] today).cell d3 "A" = some 3 ∧
      (denormalize_observations
        [⟨"A", d1, some 1⟩, ⟨"B", d1, some 2⟩, ⟨"A", d2, some 3⟩]
        [d1, d2, d3] today).cell d3 "B" = some 2) := by
  set rows : List LongRow :=
    [⟨"A", d1, some 1⟩, ⟨"B", d1, some 2⟩, ⟨"A", d2, some 3⟩] with hrows
  have h13 : d1 < d3 := lt_trans h12 h23
  have ne12 : (d1 == d2) = false := beq_eq_false_iff_ne.mpr (Nat.ne_of_lt h12)
  have ne21 : (d2 == d1) = false := beq_eq_false_iff_ne.mpr (Nat.ne_of_gt h12)
  have ne13 : (d1 == d3) = false := beq_eq_false_iff_ne.mpr (Nat.ne_of_lt h13)
  have ne31 : (d3 == d1) = false := beq_eq_false_iff_ne.mpr (Nat.ne_of_gt h13)
  have ne23 : (d2 == d3) = false := beq_eq_false_iff_ne.mpr (Nat.ne_of_lt h23)
  have ne32 : (d3 == d2) = false := beq_eq_false_iff_ne.mpr (Nat.ne_of_gt h23)
  have pA1 : preCell rows d1 "A" = some 1 := by
    rw [preCell, pivotCell, find?_dropDuplicates]
    simp [hrows, lastMatch, keyAt, ne21, List.find?]
  have pB1 : preCell rows d1 "B" = some 2 := by
    rw [preCell, pivotCell, find?_dropDuplicates]
    simp [hrows, lastMatch, keyAt, ne21, List.find?]
  have pA2 : preCell rows d2 "A" = some 3 := by
    rw [preCell, pivotCell, find?_dropDuplicates]
    simp [hrows, lastMatch, keyAt, ne12, List.find?]
  have pB2 : preCell rows d2 "B" = none := by
    rw [preCell, pivotCell, find?_dropDuplicates]
    simp [hrows, lastMatch, keyAt, ne12, List.find?]
  have pA3 : preCell rows d3 "A" = none := by
    rw [preCell, pivotCell, find?_dropDuplicates]
    simp [hrows, lastMatch, keyAt, ne13, ne23, List.find?]
  have pB3 : preCell rows d3 "B" = none := by
    rw [preCell, pivotCell, find?_dropDuplicates]
    simp [hrows, lastMatch, keyAt, ne13, ne23, List.find?]
  have hsort : List.insertionSort (· ≤ ·) [d1, d2, d3] = [d1, d2, d3] :=
    List.Sorted.insertionSort_eq (by
      simp only [List.sorted_cons, List.mem_cons, List.mem_singleton]
      constructor
      · rintro b (rfl | rfl | h)
        · omega
        · omega
        · simp at h
      · constructor
        · rintro b (rfl | h)
          · omega
          · simp at h
        · simp)
  have nle21 : ¬ d2 ≤ d1 := by omega
  have nle31 : ¬ d3 ≤ d1 := by omega
  have nle32 : ¬ d3 ≤ d2 := by omega
  have le12 : d1 ≤ d2 := le_of_lt h12
  have le13 : d1 ≤ d3 := le_of_lt h13
  have le23 : d2 ≤ d3 := le_of_lt h23
  have le1t : d1 ≤ today := le_trans le12 h2t
  refine ⟨?_, ?_, ?_, ?_, ?_, ?_, ?_⟩
  · rfl
  · show ffillCellAt rows [d1, d2, d3] "A" d1 = some 1
    rw [ffillCellAt, hsort]
    simp [List.filter, nle21, nle31, ffillStep, pA1]
  · show ffillCellAt rows [d1, d2, d3] "B" d1 = some 2
    rw [ffillCellAt, hsort]
    simp [List.filter, nle21, nle31, ffillStep, pB1]
  · show ffillCellAt rows [d1, d2, d3] "A" d2 = some 3
    rw [ffillCellAt, hsort]
    simp [List.filter, le12, nle32, ffillStep, pA1, pA2]
  · show ffillCellAt rows [d1, d2, d3] "B" d2 = some 2
    rw [ffillCellAt, hsort]
    simp [List.filter, le12, nle32, ffillStep, pB1, pB2]
  · intro h3t
    show List.filter _ (List.insertionSort (· ≤ ·) [d1, d2, d3]) = [d1, d2]
    rw [hsort]
    have nle3t : ¬ d3 ≤ today := by omega
    simp [List.filter, le1t, h2t, nle3t]
  · intro h3t
    have le1t' : d1 ≤ today := le1t
    refine ⟨?_, ?_, ?_⟩
    · show List.filter _ (List.insertionSort (· ≤ ·) [d1, d2, d3]) = [d1, d2, d3]
      rw [hsort]
      simp [List.filter, le1t, h2t, h3t]
    · show ffillCellAt rows [d1, d2, d3] "A" d3 = some 3
      rw [ffillCellAt, hsort]
      simp [List.filter, le13, le23, ffillStep, pA1, pA2, pA3]
    · show ffillCellAt rows [d1, d2, d3] "B" d3 = some 2
      rw [ffillCellAt, hsort]
      simp [List.filter, le13, le23, ffillStep, pB1, pB2, pB3]

/-- C3 witness: the concrete instance with days 1 < 2 < 3 and today 2
(the future day 3 is dropped). -/
theorem pivot_example_witness :
    (denormalize_observations
        [⟨"A", 1, some 1⟩, ⟨"B", 1, some 2⟩, ⟨"A", 2, some 3⟩]
        [1, 2, 3] 2).cols = ["fred_A", "fred_B"] ∧
    (denormalize_observations
        [⟨"A", 1, some 1⟩, ⟨"B", 1, some 2⟩, ⟨"A", 2, some 3⟩]
        [1, 2, 3] 2).cell 1 "A" = some 1 ∧
    (denormalize_observations
        [⟨"A", 1, some 1⟩, ⟨"B", 1, some 2⟩, ⟨"A", 2, some 3⟩]
        [1, 2, 3] 2).cell 2 "B" = some 2 ∧
    (denormalize_observations
        [⟨"A", 1, some 1⟩, ⟨"B", 1, some 2⟩, ⟨"A", 2, some 3⟩]
        [1, 2, 3] 2).dates = [1, 2] := by
  have h := pivot_example 1 2 3 2 (by decide) (by decide) (by decide)
  exact ⟨h.1, h.2.1, h.2.2.2.2.1, h.2.2.2.2.2.1 (by decide)⟩

/-- Helper: `FREDDatabase.insert_observations` only appends rows, each
built from one of its raw observations with a normalized value. -/
theorem insert_observations_split (sid : String) :
    ∀ (data : List FREDDatabase.RawObs) (store : List FREDDatabase.ObsRow),
      ∃ extra, (FREDDatabase.insert_observations store sid data).1 = store ++ extra ∧
        ∀ r ∈ extra, ∃ o ∈ data,
          r = ⟨sid, o.date, FREDDatabase.normalizeValue o.value, o.rtStart, o.rtEnd⟩ := by
  intro data
  induction data with
  | nil => intro store; exact ⟨[], by simp [FREDDatabase.insert_observations], by simp⟩
  | cons o rest ih =>
      intro store
      by_cases hc : store.any (FREDDatabase.obsKey sid o.date o.rtStart o.rtEnd) = true
      · obtain ⟨extra, he, hk⟩ := ih store
        refine ⟨extra, ?_, ?_⟩
        · rw [FREDDatabase.insert_observations, if_pos hc]
          exact he
        · intro r hr
          obtain ⟨o', ho', rfl⟩ := hk r hr
          exact ⟨o', List.mem_cons_of_mem o ho', rfl⟩
      · obtain ⟨extra, he, hk⟩ := ih
          (store ++ [⟨sid, o.date, FREDDatabase.normalizeValue o.value, o.rtStart, o.rtEnd⟩])
        refine ⟨⟨sid, o.date, FREDDatabase.normalizeValue o.value, o.rtStart, o.rtEnd⟩ :: extra, ?_, ?_⟩
        · rw [FREDDatabase.insert_observations, if_neg hc]
          simpa using he
        · intro r hr
          rcases List.mem_cons.mp hr with rfl | hr
          · exact ⟨o, List.mem_cons_self o rest, rfl⟩
          · obtain ⟨o', ho', rfl⟩ := hk r hr
            exact ⟨o', List.mem_cons_of_mem o ho', rfl⟩

/-- Helper: the `UNIQUE` key test of the `observations` table, decomposed. -/
theorem obsKey_eq_true_iff {sid : String} {d rs re : Nat} {r : FREDDatabase.ObsRow} :
    FREDDatabase.obsKey sid d rs re r = true ↔
      r.seriesId = sid ∧ r.date = d ∧ r.rtStart = rs ∧ r.rtEnd = re := by
  simp [FREDDatabase.obsKey, Bool.and_eq_true, beq_iff_eq, and_assoc]

/-- C7: a fetched observation carrying the provider missing-value sentinel
token is stored with a `NULL` value — `FREDDatabase.insert_observations`
normalizes the sentinel to `none` at the ingestion boundary, and the single
row created for a fresh key holds `none`, never the raw token. -/
theorem sentinel_normalized (store : List FREDDatabase.ObsRow) (sid : String)
    (data : List FREDDatabase.RawObs) (o : FREDDatabase.RawObs)
    (ho : o ∈ data) (hdot : o.value = FREDDatabase.RawValue.dot)
    (hkeys : data.Pairwise
      (fun a b => ¬(a.date = b.date ∧ a.rtStart = b.rtStart ∧ a.rtEnd = b.rtEnd)))
    (hfresh : ∀ r ∈ store, FREDDatabase.obsKey sid o.date o.rtStart o.rtEnd r = false) :
    (FREDDatabase.insert_observations store sid data).1.filter
        (FREDDatabase.obsKey sid o.date o.rtStart o.rtEnd)
      = [⟨sid, o.date, none, o.rtStart, o.rtEnd⟩] ∧
    FREDDatabase.normalizeValue o.value = none := by
  refine ⟨?_, by rw [hdot]; rfl⟩
  induction data generalizing store with
  | nil => exact absurd ho (List.not_mem_nil o)
  | cons a rest ih =>
      obtain ⟨hhead, htail⟩ := List.pairwise_cons.mp hkeys
      rcases List.mem_cons.mp ho with rfl | hmem
      · have hc : store.any (FREDDatabase.obsKey sid o.date o.rtStart o.rtEnd) = false := by
          rw [List.any_eq_false]
          intro r hr
          simp [hfresh r hr]
        rw [FREDDatabase.insert_observations, if_neg (by simp [hc])]
        obtain ⟨extra, he, hk⟩ := insert_observations_split sid rest
          (store ++ [⟨sid, o.date, FREDDatabase.normalizeValue o.value, o.rtStart, o.rtEnd⟩])
        simp only []
        rw [he, List.filter_append, List.filter_append]
        have h1 : store.filter (FREDDatabase.obsKey sid o.date o.rtStart o.rtEnd) = [] :=
          List.filter_eq_nil_iff.mpr fun r hr => by simp [hfresh r hr]
        have h2 : ([⟨sid, o.date, FREDDatabase.normalizeValue o.value, o.rtStart, o.rtEnd⟩] :
            List FREDDatabase.ObsRow).filter
              (FREDDatabase.obsKey sid o.date o.rtStart o.rtEnd)
            = [⟨sid, o.date, none, o.rtStart, o.rtEnd⟩] := by
          rw [hdot]
          simp [FREDDatabase.obsKey, FREDDatabase.normalizeValue]
        have h3 : extra.filter (FREDDatabase.obsKey sid o.date o.rtStart o.rtEnd) = [] := by
          apply List.filter_eq_nil_iff.mpr
          intro r hr hkey
          obtain ⟨o', ho', rfl⟩ := hk r hr
          have := obsKey_eq_true_iff.mp hkey
          exact hhead o' ho' ⟨this.2.1.symm, this.2.2.1.symm, this.2.2.2.symm⟩
        rw [h1, h2, h3]
        simp
      · by_cases hc : store.any (FREDDatabase.obsKey sid a.date a.rtStart a.rtEnd) = true
        · rw [FREDDatabase.insert_observations, if_pos hc]
          exact ih store hmem htail hfresh
        · rw [FREDDatabase.insert_observations, if_neg hc]
          simp only []
          apply ih _ hmem htail
          intro r hr
          rcases List.mem_append.mp hr with hr | hr
          · exact hfresh r hr
          · rcases List.mem_singleton.mp hr with rfl
            cases hkey : FREDDatabase.obsKey sid o.date o.rtStart o.rtEnd
              ⟨sid, a.date, FREDDatabase.normalizeValue a.value, a.rtStart, a.rtEnd⟩
            · rfl
            · have := obsKey_eq_true_iff.mp hkey
              exact absurd ⟨this.2.1, this.2.2.1, this.2.2.2⟩ (hhead o hmem)

/-- C7 witness: inserting the single sentinel observation
`(date 7, '.', realtime 1-2)` for series `X` into the empty store leaves one
row for that key, with a `NULL` value. -/
theorem sentinel_normalized_witness :
    (FREDDatabase.insert_observations [] "X"
        [⟨7, FREDDatabase.RawValue.dot, 1, 2⟩]).1.filter
        (FREDDatabase.obsKey "X" 7 1 2) = [⟨"X", 7, none, 1, 2⟩] ∧
    FREDDatabase.normalizeValue FREDDatabase.RawValue.dot = none := by
  have h := sentinel_normalized [] "X" [⟨7, FREDDatabase.RawValue.dot, 1, 2⟩]
    ⟨7, FREDDatabase.RawValue.dot, 1, 2⟩ (by simp) rfl (by simp) (by simp)
  exact h

theorem find?_map_update {d0 d : Nat} {upd : List (String × Option Rat)} :
    ∀ rows : List (Nat × List (String × Option Rat)),
      (rows.map (fun rc => if rc.1 == d0 then (rc.1, applyUpdates rc.2 upd) else rc)).find?
          (fun rc => rc.1 == d)
        = if d0 = d then
            (rows.find? (fun rc => rc.1 == d)).map
              (fun rc => (rc.1, applyUpdates rc.2 upd))
          else rows.find? (fun rc => rc.1 == d) := by
  intro rows
  induction rows with
  | nil => simp
  | cons rc rs ih =>
      simp only [List.map_cons]
      by_cases hd : (rc.1 == d) = true
      · have hd' : rc.1 = d := beq_iff_eq.mp hd
        by_cases hdd : d0 = d
        · have h0 : (rc.1 == d0) = true := by rw [beq_iff_eq, hd', hdd]
          rw [if_pos h0, if_pos hdd]
          simp [List.find?, hd]
        · have h0 : (rc.1 == d0) = false := by
            rw [beq_eq_false_iff_ne, hd']
            exact fun h => hdd h.symm
          rw [if_neg (by simp [h0]), if_neg hdd]
          simp [List.find?, hd]
      · have hd0 : (rc.1 == d) = false := by simpa using hd
        by_cases h0 : (rc.1 == d0) = true
        · rw [if_pos h0]
          simp only [List.find?, hd0]
          exact ih
        · rw [if_neg h0]
          simp only [List.find?, hd0]
          exact ih

/-- Helper: upserting one date leaves the row of every other date
untouched. -/
theorem find?_upsertRow_ne (rows : List (Nat × List (String × Option Rat)))
    (d0 d : Nat) (upd : List (String × Option Rat)) (hne : d0 ≠ d) :
    (upsertRow rows d0 upd).find? (fun rc => rc.1 == d)
      = rows.find? (fun rc => rc.1 == d) := by
  unfold upsertRow
  by_cases hany : rows.any (fun rc => rc.1 == d0) = true
  · rw [if_pos hany, find?_map_update, if_neg hne]
  · rw [if_neg hany, List.find?_append]
    have : (([(d0, upd)] : List (Nat × List (String × Option Rat))).find?
        (fun rc => rc.1 == d)) = none := by
      simp [List.find?, beq_eq_false_iff_ne.mpr hne]
    rw [this]
    cases rows.find? (fun rc => rc.1 == d) <;> rfl

/-- Helper: upserting a date that already has a row rewrites exactly that
row through `applyUpdates`. -/
theorem find?_upsertRow_eq (rows : List (Nat × List (String × Option Rat)))
    (d0 : Nat) (upd : List (String × Option Rat))
    (hsome : (rows.find? (fun rc => rc.1 == d0)).isSome) :
    (upsertRow rows d0 upd).find? (fun rc => rc.1 == d0)
      = (rows.find? (fun rc => rc.1 == d0)).map
          (fun rc => (rc.1, applyUpdates rc.2 upd)) := by
  have hany : rows.any (fun rc => rc.1 == d0) = true := by
    rw [List.any_eq_true]
    obtain ⟨rc, hrc, hkey⟩ := List.find?_isSome.mp hsome
    exact ⟨rc, hrc, hkey⟩
  unfold upsertRow
  rw [if_pos hany, find?_map_update, if_pos rfl]

/-- Helper: the upsert fold leaves every date outside the frame untouched. -/
theorem find?_foldl_upsert_ne (frameCols : List String) :
    ∀ (frameRows : List (Nat × List (Option Rat)))
      (rows : List (Nat × List (String × Option Rat))) (d : Nat),
      d ∉ frameRows.map Prod.fst →
      ((frameRows.foldl (fun rs dr => upsertRow rs dr.1 (frameCols.zip dr.2))
          rows).find? (fun rc => rc.1 == d))
        = rows.find? (fun rc => rc.1 == d) := by
  intro frameRows
  induction frameRows with
  | nil => intro rows d _; rfl
  | cons dr rest ih =>
      intro rows d hd
      rw [List.map_cons] at hd
      have h1 : dr.1 ≠ d := by
        intro h
        exact hd (h ▸ List.mem_cons_self dr.1 (rest.map Prod.fst))
      have h2 : d ∉ rest.map Prod.fst := fun h => hd (List.mem_cons_of_mem _ h)
      rw [List.foldl_cons, ih _ d h2, find?_upsertRow_ne _ _ _ _ h1]

/-- Helper: for a frame date with a conflicting stored row, the upsert fold
rewrites that row through `applyUpdates` with the frame's cells. -/
theorem find?_foldl_upsert_mem (frameCols : List String) :
    ∀ (frameRows : List (Nat × List (Option Rat)))
      (rows : List (Nat × List (String × Option Rat)))
      (d : Nat) (vals : List (Option Rat)),
      (d, vals) ∈ frameRows → (frameRows.map Prod.fst).Nodup →
      (rows.find? (fun rc => rc.1 == d)).isSome →
      ((frameRows.foldl (fun rs dr => upsertRow rs dr.1 (frameCols.zip dr.2))
          rows).find? (fun rc => rc.1 == d))
        = (rows.find? (fun rc => rc.1 == d)).map
            (fun rc => (rc.1, applyUpdates rc.2 (frameCols.zip vals))) := by
  intro frameRows
  induction frameRows with
  | nil => intro rows d vals hmem; exact absurd hmem (List.not_mem_nil _)
  | cons dr rest ih =>
      intro rows d vals hmem hnodup hsome
      rw [List.map_cons, List.nodup_cons] at hnodup
      rw [List.foldl_cons]
      rcases List.mem_cons.mp hmem with rfl | hmem
      · have hrest : d ∉ rest.map Prod.fst := hnodup.1
        rw [find?_foldl_upsert_ne frameCols rest _ d hrest]
        exact find?_upsertRow_eq rows d _ hsome
      · have hd : dr.1 ≠ d := by
          intro h
          exact hnodup.1 (h ▸ List.mem_map_of_mem Prod.fst hmem)
        have hsome' : ((upsertRow rows dr.1 (frameCols.zip dr.2)).find?
            (fun rc => rc.1 == d)).isSome := by
          rw [find?_upsertRow_ne _ _ _ _ hd]
          exact hsome
        rw [ih _ d vals hmem hnodup.2 hsome', find?_upsertRow_ne _ _ _ _ hd]

/-- Helper: association lookup through an append whose first part hits. -/
theorem lookup_append_of_isSome {upd rest : List (String × Option Rat)}
    {c : String} (h : (upd.lookup c).isSome) :
    (upd ++ rest).lookup c = upd.lookup c := by
  induction upd with
  | nil => simp at h
  | cons kv upd ih =>
      by_cases hk : (c == kv.1) = true
      · simp [List.lookup, hk]
      · have hk' : (c == kv.1) = false := by simpa using hk
        simp only [List.cons_append, List.lookup, hk']
        apply ih
        simpa [List.lookup, hk'] using h

/-- Helper: association lookup through an append whose first part misses. -/
theorem lookup_append_of_none {upd rest : List (String × Option Rat)}
    {c : String} (h : upd.lookup c = none) :
    (upd ++ rest).lookup c = rest.lookup c := by
  induction upd with
  | nil => rfl
  | cons kv upd ih =>
      by_cases hk : (c == kv.1) = true
      · simp [List.lookup, hk] at h
      · have hk' : (c == kv.1) = false := by simpa using hk
        simp only [List.cons_append, List.lookup, hk']
        apply ih
        simpa [List.lookup, hk'] using h

/-- Helper: dropping the cells of updated columns does not change the
lookup of a column that is not updated. -/
theorem lookup_filter_not_upd {cells upd : List (String × Option Rat)}
    {c : String} (h : (upd.lookup c).isNone) :
    (cells.filter (fun kv => (upd.lookup kv.1).isNone)).lookup c
      = cells.lookup c := by
  induction cells with
  | nil => rfl
  | cons kv cells ih =>
      by_cases hk : (c == kv.1) = true
      · have hkv : (upd.lookup kv.1).isNone = true := by
          rw [← beq_iff_eq.mp hk]
          exact h
        simp [List.filter_cons, hkv, List.lookup, hk]
      · have hk' : (c == kv.1) = false := by simpa using hk
        cases hkeep : (upd.lookup kv.1).isNone
        · simp [List.filter_cons, hkeep, List.lookup, hk', ih]
        · simp [List.filter_cons, hkeep, List.lookup, hk', ih]

/-- Helper: the conflict-update semantics column by column — an updated
column reads the incoming value, any other column reads the old cell. -/
theorem lookup_applyUpdates (cells upd : List (String × Option Rat))
    (c : String) :
    (applyUpdates cells upd).lookup c
      = if (upd.lookup c).isSome then upd.lookup c else cells.lookup c := by
  unfold applyUpdates
  cases hupd : (upd.lookup c).isSome
  · have hnone : upd.lookup c = none := Option.not_isSome_iff_eq_none.mp (by simp [hupd])
    rw [if_neg (by simp [hupd]), lookup_append_of_none hnone,
      lookup_filter_not_upd (by simp [hnone])]
  · rw [if_pos (by simp [hupd]), lookup_append_of_isSome (by simp [hupd])]

/-- Helper: a frame column always has a bound value in the zipped row. -/
theorem zip_lookup_isSome :
    ∀ {cols : List String} {vals : List (Option Rat)} {c : String},
      c ∈ cols → vals.length = cols.length →
      ((cols.zip vals).lookup c).isSome := by
  intro cols
  induction cols with
  | nil => intro vals c hc; exact absurd hc (List.not_mem_nil c)
  | cons c0 cols ih =>
      intro vals c hc hlen
      cases vals with
      | nil => simp at hlen
      | cons v vs =>
          by_cases hk : (c == c0) = true
          · simp [List.zip_cons_cons, List.lookup, hk]
          · have hc' : c ∈ cols := by
              rcases List.mem_cons.mp hc with rfl | hc'
              · exact absurd (beq_self_eq_true _) hk
              · exact hc'
            have hk' : (c == c0) = false := by simpa using hk
            simp only [List.zip_cons_cons, List.lookup, hk']
            exact ih hc' (by simpa using hlen)

/-- Helper: a column outside the frame has no bound value in the zipped
row. -/
theorem zip_lookup_none :
    ∀ {cols : List String} {vals : List (Option Rat)} {c : String},
      c ∉ cols → (cols.zip vals).lookup c = none := by
  intro cols
  induction cols with
  | nil => intro vals c _; simp
  | cons c0 cols ih =>
      intro vals c hc
      cases vals with
      | nil => simp
      | cons v vs =>
          have hk : (c == c0) = false :=
            beq_eq_false_iff_ne.mpr (fun h => hc (h ▸ List.mem_cons_self c0 cols))
          simp only [List.zip_cons_cons, List.lookup, hk]
          exact ih (fun h => hc (List.mem_cons_of_mem c0 h))

/-- Helper: every frame column is present after `ensure_columns`. -/
theorem ensure_columns_mem (cols fc : List String) :
    ∀ c ∈ fc, c ∈ ensure_columns cols fc := by
  intro c hc
  unfold ensure_columns
  rw [List.mem_append]
  by_cases hin : c ∈ cols
  · exact Or.inl hin
  · refine Or.inr (List.mem_filter.mpr ⟨hc, ?_⟩)
    simp [hin]

/-- Helper: the check-before-add column step is idempotent. -/
theorem ensure_columns_idem (cols fc : List String) :
    ensure_columns (ensure_columns cols fc) fc = ensure_columns cols fc := by
  have hfil : fc.filter (fun c => !((ensure_columns cols fc).contains c)) = [] := by
    apply List.filter_eq_nil_iff.mpr
    intro c hc
    simp [ensure_columns_mem cols fc c hc]
  calc ensure_columns (ensure_columns cols fc) fc
      = ensure_columns cols fc
          ++ fc.filter (fun c => !((ensure_columns cols fc).contains c)) := rfl
    _ = ensure_columns cols fc := by rw [hfil, List.append_nil]

/-- C9: the wide-store upsert adds every missing frame column before any
row is written (a check-before-add step that is idempotent), never drops an
existing column; and on a date conflict exactly the frame's columns are
overwritten with the frame's values — null included — while every column
absent from the frame keeps its stored value. -/
theorem wide_upsert_schema (tbl : WideTable) (frameCols : List String)
    (frameRows : List (Nat × List (Option Rat))) :
    ((upsert_wide_table tbl frameCols frameRows).cols
        = ensure_columns tbl.cols frameCols ∧
      (∀ c ∈ tbl.cols, c ∈ (upsert_wide_table tbl frameCols frameRows).cols) ∧
      (∀ c ∈ frameCols, c ∈ (upsert_wide_table tbl frameCols frameRows).cols) ∧
      ensure_columns (ensure_columns tbl.cols frameCols) frameCols
        = ensure_columns tbl.cols frameCols) ∧
    (∀ d vals, (d, vals) ∈ frameRows → (frameRows.map Prod.fst).Nodup →
      vals.length = frameCols.length →
      (tbl.rows.find? (fun rc => rc.1 == d)).isSome →
      (∀ c ∈ frameCols,
        cellValue (upsert_wide_table tbl frameCols frameRows) d c
          = (frameCols.zip vals).lookup c ∧
        ((frameCols.zip vals).lookup c).isSome) ∧
      (∀ c, c ∉ frameCols →
        cellValue (upsert_wide_table tbl frameCols frameRows) d c
          = cellValue tbl d c)) := by
  constructor
  · refine ⟨rfl, ?_, ?_, ensure_columns_idem tbl.cols frameCols⟩
    · intro c hc
      show c ∈ ensure_columns tbl.cols frameCols
      exact List.mem_append.mpr (Or.inl hc)
    · intro c hc
      exact ensure_columns_mem tbl.cols frameCols c hc
  · intro d vals hmem hnodup hlen hsome
    have hfind := find?_foldl_upsert_mem frameCols frameRows tbl.rows d vals
      hmem hnodup hsome
    obtain ⟨rc, hrc⟩ := Option.isSome_iff_exists.mp hsome
    constructor
    · intro c hc
      refine ⟨?_, zip_lookup_isSome hc hlen⟩
      show ((upsert_wide_table tbl frameCols frameRows).rows.find?
          (fun rc => rc.1 == d)).bind (fun rc => rc.2.lookup c) = _
      rw [show (upsert_wide_table tbl frameCols frameRows).rows
          = frameRows.foldl (fun rs dr => upsertRow rs dr.1 (frameCols.zip dr.2))
            tbl.rows from rfl, hfind, hrc]
      change (applyUpdates rc.2 (frameCols.zip vals)).lookup c = _
      rw [lookup_applyUpdates, if_pos (zip_lookup_isSome hc hlen)]
    · intro c hc
      show ((upsert_wide_table tbl frameCols frameRows).rows.find?
          (fun rc => rc.1 == d)).bind (fun rc => rc.2.lookup c) = _
      rw [show (upsert_wide_table tbl frameCols frameRows).rows
          = frameRows.foldl (fun rs dr => upsertRow rs dr.1 (frameCols.zip dr.2))
            tbl.rows from rfl, hfind, hrc]
      change (applyUpdates rc.2 (frameCols.zip vals)).lookup c = _
      rw [lookup_applyUpdates, if_neg (by simp [zip_lookup_none hc])]
      show _ = cellValue tbl d c
      rw [cellValue, hrc]
      rfl

/-- C9 witness: upserting a one-row frame with the single column `fred_B`
at a date whose stored row holds `fred_A = 5` overwrites `fred_B` with 7
and leaves `fred_A` untouched. -/
theorem wide_upsert_schema_witness :
    cellValue (upsert_wide_table ⟨["fred_A"], [(1, [("fred_A", some 5)])]⟩
        ["fred_B"] [(1, [some 7])]) 1 "fred_B" = some (some 7) ∧
    cellValue (upsert_wide_table ⟨["fred_A"], [(1, [("fred_A", some 5)])]⟩
        ["fred_B"] [(1, [some 7])]) 1 "fred_A"
      = cellValue ⟨["fred_A"], [(1, [("fred_A", some 5)])]⟩ 1 "fred_A" := by
  have h := (wide_upsert_schema ⟨["fred_A"], [(1, [("fred_A", some 5)])]⟩
    ["fred_B"] [(1, [some 7])]).2 1 [some 7] (by simp) (by simp) (by simp) (by decide)
  constructor
  · have h1 := (h.1 "fred_B" (by simp)).1
    rw [h1]
    rfl
  · exact h.2 "fred_A" (by decide)

/-- C8 witness: a zero-observation fetch is logged as a zero-count success
by the script, and a failed metadata lookup as a single failed entry by the
extractor. -/
theorem audit_exactly_one_witness :
    (extract_and_store ⟨[], [], []⟩ "X" 5 (Except.ok ⟨"t", "f", "u", "l"⟩)
        (fun _ => Except.ok [])).audit = [⟨"X", "success", "0 records"⟩] ∧
    (FREDExtractor.extract_series ⟨[], [], []⟩ "X" (Except.error "down")
        (Except.ok []) false).1.log = [⟨"X", "failed", 0, some "down"⟩] := by
  constructor
  · have h := (audit_exactly_one.1 ⟨[], [], []⟩ "X" 5 (Except.ok ⟨"t", "f", "u", "l"⟩)
      (fun _ => Except.ok [])).2.2 rfl
    simpa using h
  · have h := (audit_exactly_one.2 ⟨[], [], []⟩ "X" (Except.error "down")
      (Except.ok []) false (by decide)).1 "down" rfl
    simpa using h

end FredDb
